import Mathlib

/-!
Verification of the jadk repository's pipeline orchestrator specification.

The repository configures a pipeline of text-generation stages (an initial
architecture agent, a review/refine loop, a web-search sub-agent used as a
tool) on top of an orchestration engine (sequential and loop composition,
per-session state bag, session store).  The engine itself is an external
dependency, so its semantics are modelled from the specification; the
configuration of the pipeline, the `invoke` entry point and the market-data
tool functions are translated from the repository sources.
-/

namespace Jadk

/-- Modelled from the spec: the State Bag, an ordered mapping of named keys to
produced text values; writing a key overwrites (shadows) any prior value. -/
def StateBag := List (String × String)

instance : DecidableEq StateBag :=
  inferInstanceAs (DecidableEq (List (String × String)))

/-- Modelled from the spec: `set(key, value)` overwrites any prior value for
the key (newest binding shadows older ones). -/
def StateBag.set (bag : StateBag) (k v : String) : StateBag :=
  (k, v) :: bag

/-- Modelled from the spec: `get(key)` returns the most recent value for the
key, or `none` as the defined unset signal. -/
def StateBag.get : StateBag → String → Option String
  | [], _ => none
  | (k, v) :: rest, key => if k = key then some v else StateBag.get rest key

/-- Write the declared output key of a stage, when one is declared. -/
def writeKey (bag : StateBag) : Option String → String → StateBag
  | none, _ => bag
  | some k, v => bag.set k v

/-- An instruction template element: literal text or a `\x7bkey\x7d`
placeholder to be substituted from the State Bag. -/
inductive Tmpl where
  | lit (s : String)
  | hole (k : String)
deriving DecidableEq

/-- Modelled from the spec: `interpolate(template)` replaces every placeholder
with the current State Bag value; an unset key is substituted by the empty
string (the lenient policy of the error-handling design). -/
def StateBag.interpolate (bag : StateBag) : List Tmpl → String
  | [] => ""
  | .lit s :: rest => s ++ bag.interpolate rest
  | .hole k :: rest => (bag.get k).getD "" ++ bag.interpolate rest

/-- Role of a transcript turn. -/
inductive Role where
  | user
  | agent
  | tool
deriving DecidableEq

/-- A transcript turn: role, text and the producing stage's name. -/
structure Turn where
  role : Role
  text : String
  stage : String
deriving DecidableEq

/-- Modelled from the spec: the Generation Backend collaborator.  `gen` maps
the index of the backend call and the resolved instruction to the produced
text; `toolReq` says whether the generation requested a tool call; `esc` says
whether the generation produced the loop's explicit stop (escalation) signal. -/
structure Backend where
  gen : Nat → String → String
  toolReq : Nat → Bool
  esc : Nat → Bool

/-- Running state of one pipeline run: the session transcript, the session's
State Bag, the number of backend calls made so far, whether a stop signal has
been produced, and the log of resolved (interpolated) instructions sent to the
backend. -/
structure RState where
  transcript : List Turn
  bag : StateBag
  calls : Nat
  stopped : Bool
  resolved : List String
deriving DecidableEq

/-- Modelled from the spec: the closed Stage variant type.  A leaf stage holds
its instruction template, its declared output key and the stages it may invoke
as tools; sequential and loop stages hold ordered child lists, the loop also a
maximum iteration count. -/
inductive Stage where
  | leaf (name : String) (instruction : List Tmpl) (output_key : Option String)
      (tools : List Stage)
  | seq (name : String) (children : List Stage)
  | loop (name : String) (max_iterations : Nat) (children : List Stage)

/-- Text of the last turn of a transcript (the sub-agent's final answer when
the transcript is a tool sub-conversation). -/
def lastText (tr : List Turn) : String :=
  (tr.getLast?.map Turn.text).getD ""

/-- Result of one plain (tool-free) leaf exchange: append one agent turn,
write the declared output key with the produced text, count the backend call,
accumulate the stop signal and log the resolved instruction. -/
def leafResult (B : Backend) (name : String) (key : Option String)
    (st : RState) (r : String) : RState :=
  ⟨st.transcript ++ [⟨.agent, B.gen st.calls r, name⟩],
   writeKey st.bag key (B.gen st.calls r),
   st.calls + 1,
   st.stopped || B.esc st.calls,
   st.resolved ++ [r]⟩

mutual

/-- Modelled from the spec: `run` of a Stage.  A leaf interpolates its
instruction against the State Bag, performs one generation exchange (with at
most one round of tool delegation: the tool stage runs on its own isolated
fresh sub-conversation and only its final text is folded back), appends the
produced turns and writes its declared output key.  A sequential stage runs
its children strictly in list order.  A loop stage runs its child sequence up
to `max_iterations` times, stopping early only on the explicit stop signal. -/
def runStage (B : Backend) : Stage → RState → RState
  | .leaf name instr key tools, st =>
    let r := st.bag.interpolate instr
    match tools with
    | [] => leafResult B name key st r
    | t :: _ =>
      if B.toolReq st.calls then
        let sub := runStage B t ⟨[], [], st.calls + 1, false, []⟩
        let toolText := lastText sub.transcript
        let finalText := B.gen sub.calls (r ++ "\n" ++ toolText)
        ⟨st.transcript ++ [⟨.tool, toolText, name⟩, ⟨.agent, finalText, name⟩],
         writeKey st.bag key finalText,
         sub.calls + 1,
         st.stopped || B.esc sub.calls,
         st.resolved ++ [r]⟩
      else leafResult B name key st r
  | .seq _ children, st => runSeq B children st
  | .loop _ n children, st => runLoop B children n st

/-- Modelled from the spec: run an ordered child list strictly in order; each
later child observes the state left by the earlier ones. -/
def runSeq (B : Backend) : List Stage → RState → RState
  | [], st => st
  | c :: cs, st => runSeq B cs (runStage B c st)

/-- Modelled from the spec: run the child sequence up to the given number of
times, checking the stop signal before each pass. -/
def runLoop (B : Backend) (children : List Stage) : Nat → RState → RState
  | 0, st => st
  | n + 1, st =>
    if st.stopped then st else runLoop B children n (runSeq B children st)

end

/-! ## Session store -/

/-- Session identity: (application name, user id, session id). -/
structure SessionKey where
  app : String
  user : String
  sid : String
deriving DecidableEq

/-- A session: id, ordered transcript of turns and the State Bag. -/
structure Session where
  id : String
  transcript : List Turn
  bag : StateBag
deriving DecidableEq

/-- Modelled from the spec: the in-memory Session Store, keyed by
(application, user id, session id); newest entry for a key shadows older
ones. -/
def SessionStore := List (SessionKey × Session)

instance : DecidableEq SessionStore :=
  inferInstanceAs (DecidableEq (List (SessionKey × Session)))

/-- Modelled from the spec: `get_session` returns the stored session for the
identity, or `none` when absent. -/
def get_session : SessionStore → SessionKey → Option Session
  | [], _ => none
  | (k, s) :: rest, key => if k = key then some s else get_session rest key

/-- Modelled from the spec: `create_session` creates a session with empty
transcript and empty State Bag, stores it under the identity and returns it. -/
def create_session (store : SessionStore) (key : SessionKey) :
    Session × SessionStore :=
  (⟨key.sid, [], []⟩, (key, (⟨key.sid, [], []⟩ : Session)) :: store)

/-- Store the updated session under its identity after a run. -/
def update_session (store : SessionStore) (key : SessionKey) (s : Session) :
    SessionStore :=
  (key, s) :: store

/-! ## The pipeline configured by the repository -/

/-- Instruction template of the initial architecture agent (source
`subagents/initial/agent.py`). -/
def initial_instruction : List Tmpl :=
  [.lit "\n    You are an architect agent. Your task is to provide an initial architecture design based on \n    the given requirements.\n    "]

/-- Literal text of the reviewer instruction before its placeholder (source
`subagents/reviewer/agent.py`). -/
def reviewer_before : String :=
  "\n    You are an architecture reviewer agent. \n    \n    Your task is to review the architecture design provided by the initial architecture agent.\n\n    Analyze the design for completeness, scalability, maintainability, and adherence to best practices.\n    Identify any potential issues or areas for improvement, and provide constructive feedback.\n\n    Provide feedback on the design, including any potential issues or improvements.\n\n    ## ARCHITECTURE TO REVIEW\n    "

/-- Literal text of the reviewer instruction after its placeholder. -/
def reviewer_after : String := "\n    "

/-- Instruction template of the reviewer: literal text around the
`architecture_design` placeholder. -/
def reviewer_instruction : List Tmpl :=
  [.lit reviewer_before, .hole "architecture_design", .lit reviewer_after]

/-- Instruction template of the web searcher (source
`subagents/refiner/web_searcher/agent.py`). -/
def web_searcher_instruction : List Tmpl :=
  [.lit "\n    You are a helpful assistant that can analyze technical articles about software architecture\n    available on the web.\n\n    When asked about, you should use the google_search tool to search for technical articles that\n    are useful to solve a problem.    \n    "]

/-- Literal text of the refiner instruction before its placeholders (source
`subagents/refiner/agent.py`). -/
def refiner_before : String :=
  "Software architecture refiner.\n\n    Your task is to refine the software architecture based on the given feedback.\n    \n    ## INPUTS\n    **Current Post:**\n    "

/-- Literal text of the refiner instruction between its two placeholders. -/
def refiner_between : String := "\n    \n    **Review Feedback:**\n    "

/-- Literal text of the refiner instruction after its placeholders. -/
def refiner_after : String :=
  "\n    \n    ## TASK\n    Refine the architecture design based on the review feedback provided.\n    Ensure that the refined design addresses all the feedback points and improves the overall quality of the architecture.\n    Focus on enhancing the design\x27s clarity, completeness, and adherence to best practices.\n    Provide a clear and concise refined architecture design that incorporates the feedback.\n\n    ## Tools\n    If you are in doubt, you have access to the web_searcher agent that is able to search cleverly the web\n    for a solution or to identify a blueprint\n\n    ## OUTPUT INSTRUCTIONS\n    - Output ONLY the refined post content in markdown format.    \n    "

/-- Instruction template of the refiner: literal text around the
`architecture_design` and `review_feedback` placeholders. -/
def refiner_instruction : List Tmpl :=
  [.lit refiner_before, .hole "architecture_design", .lit refiner_between,
   .hole "review_feedback", .lit refiner_after]

/-- Source `subagents/initial/agent.py`: the initial architecture agent; no
tools, output key `architecture_design`. -/
def initial_architecture_agent : Stage :=
  .leaf "initial_architecture_agent"
    initial_instruction
    (some "architecture_design")
    []

/-- Source `subagents/reviewer/agent.py`: the architecture reviewer agent; its
instruction interpolates the `architecture_design` State Bag key; output key
`review_feedback`; no tools. -/
def architecture_reviewer_agent : Stage :=
  .leaf "architecture_reviewer_agent"
    reviewer_instruction
    (some "review_feedback")
    []

/-- Source `subagents/refiner/web_searcher/agent.py`: the web-searcher agent
used by the refiner as a tool; it declares no output key. -/
def web_searcher : Stage :=
  .leaf "web_searcher"
    web_searcher_instruction
    none
    []

/-- Source `subagents/refiner/agent.py`: the architecture refiner agent; its
instruction interpolates `architecture_design` and `review_feedback`; output
key `architecture_design`; it may invoke the web searcher as an agent tool. -/
def architecture_refiner : Stage :=
  .leaf "ArchitectureRefinerAgent"
    refiner_instruction
    (some "architecture_design")
    [web_searcher]

/-- Source `architect.py` `_build_agent`: the review/refine loop with
`max_iterations = 5` and children `[reviewer, refiner]`. -/
def refinement_loop : Stage :=
  .loop "PostRefinementLoop" 5 [architecture_reviewer_agent, architecture_refiner]

/-- Source `architect.py` `_build_agent`: the root sequential pipeline,
children `[initial agent, refinement loop]`. -/
def software_architecture_pipeline : Stage :=
  .seq "SoftwareArchitecturePipeline" [initial_architecture_agent, refinement_loop]

/-- Source `architect.py`: the application name. -/
def APP_NAME : String := "architectin\x27"

/-! ## Runner and invocation protocol -/

/-- Modelled from the spec: the runner appends the user turn with the input
text, runs the root Stage against the session, and yields the produced turns
(the new transcript suffix) as the run's events. -/
def runnerRun (B : Backend) (root : Stage) (s : Session) (query : String) :
    Session × List Turn :=
  let tr0 := s.transcript ++ [⟨Role.user, query, "user"⟩]
  let fin := runStage B root ⟨tr0, s.bag, 0, false, []⟩
  (⟨s.id, fin.transcript, fin.bag⟩, fin.transcript.drop tr0.length)

/-- A content part of a run event; its text field may be absent. -/
structure Part where
  text : Option String
deriving DecidableEq

/-- A run event: the content parts of one produced turn. -/
structure Event where
  parts : List Part
deriving DecidableEq

/-- Each produced turn yields one event whose single content part carries its
text. -/
def turnEvent (t : Turn) : Event := ⟨[⟨some t.text⟩]⟩

/-- Source `architect.py` lines 100-105: if there are no events or the last
event has no content parts, return the empty string; otherwise join the texts
of the last event's parts, skipping parts whose text is absent or empty. -/
def invokeResult (events : List Event) : String :=
  match events.getLast? with
  | none => ""
  | some e =>
    if e.parts = [] then ""
    else
      String.intercalate "\n" (e.parts.filterMap fun p =>
        match p.text with
        | some t => if t = "" then none else some t
        | none => none)

/-- Source `architect.py` lines 71-85: fetch the session, creating it with
empty state when absent. -/
def lookupOrCreate (store : SessionStore) (key : SessionKey) :
    Session × SessionStore :=
  match get_session store key with
  | some s => (s, store)
  | none => create_session store key

/-- Source `architect.py` `ArchitectAgent.invoke`: look the session up (or
create it), run the pipeline through the runner, store the updated session and
return the extracted final text together with the updated store. -/
def invoke (B : Backend) (store : SessionStore)
    (query session_id user_id : String) : String × SessionStore :=
  let key : SessionKey := ⟨APP_NAME, user_id, session_id⟩
  let ls := lookupOrCreate store key
  let rr := runnerRun B software_architecture_pipeline ls.1 query
  (invokeResult (rr.2.map turnEvent), update_session ls.2 key rr.1)

/-- Resolved instruction templates of one run of the pipeline against a
session (the interpolations sent to the Generation Backend). -/
def runResolvedLog (B : Backend) (s : Session) (query : String) : List String :=
  (runStage B software_architecture_pipeline
    ⟨s.transcript ++ [⟨Role.user, query, "user"⟩], s.bag, 0, false, []⟩).resolved

/-! ## Market agent tool functions (source `01 - first/market_agent/agent.py`)

The network, JSON decoding and Python numeric parsing are external effects;
they are abstracted as an environment whose every fallible step is an
`Except String` value (`.error` plays the role of a raised exception).  The
control flow of the two tool functions is translated from the source. -/

/-- A Python value appearing in the tool result dictionaries. -/
inductive PyObj where
  | pstr (s : String)
  | pflt (r : String)
  | pint (n : Int)
  | plist (l : List (List (String × PyObj)))

/-- A Python dictionary with string keys. -/
def PyDict := List (String × PyObj)

/-- Dictionary lookup (first binding wins). -/
def dictGet : PyDict → String → Option PyObj
  | [], _ => none
  | (k, v) :: rest, key => if k = key then some v else dictGet rest key

/-- A raw JSON row of the movers response: string fields accessed with
`.get(field, default)`. -/
def RawRow := List (String × String)

/-- Field access with default, as Python's `dict.get(field, default)`. -/
def rawGet : RawRow → String → String → String
  | [], _, d => d
  | (k, v) :: rest, key, d => if k = key then v else rawGet rest key d

/-- Decoded body of the `TOP_GAINERS_LOSERS` response; a missing field
corresponds to the `.. in data` checks of the source. -/
structure MoversData where
  top_gainers : Option (List RawRow)
  top_losers : Option (List RawRow)
  last_updated : Option String

/-- An HTTP response: status code plus the outcome of `.json()` (which may
raise). -/
structure HttpResp (α : Type) where
  status_code : Nat
  jsonBody : Except String α

/-- Decoded body of the `OVERVIEW` response, accessed with `.get`. -/
def OverviewData := List (String × String)

/-- Decoded body of the `GLOBAL_QUOTE` response: the `Global Quote` object,
when present, accessed with `.get`. -/
structure QuoteData where
  global_quote : Option (List (String × String))

/-- The external world the market tool functions interact with: each
`requests.get(..).json()` round-trip and each Python numeric
parse/format, any of which may raise. -/
structure MarketEnv where
  gainersResp : Except String (HttpResp MoversData)
  overviewResp : Except String (HttpResp OverviewData)
  quoteResp : Except String (HttpResp QuoteData)
  pyFloat : String → Except String String
  pyInt : String → Except String Int
  isNonNeg : String → Bool
  fmtBillions : String → String
  intComma : Int → String

/-- One processed mover entry (the fields the source extracts per stock). -/
structure Mover where
  symbol : String
  name : String
  price : String
  change : String
  change_percent : String
  volume : Int

/-- Translate one raw stock row as the source does: strip `$`, `%` and `,`
and parse; a parse failure propagates as a raised exception. -/
def processRow (env : MarketEnv) (row : RawRow) : Except String Mover := do
  let price ← env.pyFloat ((rawGet row "price" "0").replace "$" "")
  let change ← env.pyFloat ((rawGet row "change_amount" "0").replace "$" "")
  let cp ← env.pyFloat ((rawGet row "change_percentage" "0%").replace "%" "")
  let vol ← env.pyInt ((rawGet row "volume" "0").replace "," "")
  return ⟨rawGet row "ticker" "", rawGet row "name" "", price, change, cp, vol⟩

/-- The per-stock dictionary the source appends to the gainers/losers lists. -/
def moverDict (m : Mover) : PyDict :=
  [("symbol", .pstr m.symbol), ("name", .pstr m.name), ("price", .pflt m.price),
   ("change", .pflt m.change), ("change_percent", .pflt m.change_percent),
   ("volume", .pint m.volume)]

/-- One line of the gainers report (`+` sign prepended, as in the source). -/
def gainerLine (idx : Nat) (m : Mover) : String :=
  toString idx ++ ". " ++ m.symbol ++ " (" ++ m.name ++ "): +" ++
    m.change_percent ++ "%, $" ++ m.price ++ "\n"

/-- One line of the losers report. -/
def loserLine (idx : Nat) (m : Mover) : String :=
  toString idx ++ ". " ++ m.symbol ++ " (" ++ m.name ++ "): " ++
    m.change_percent ++ "%, $" ++ m.price ++ "\n"

/-- Enumerate a list from 1, as Python's `enumerate(.., 1)`. -/
def enumLines (line : Nat → Mover → String) (start : Nat) :
    List Mover → String
  | [] => ""
  | m :: rest => line start m ++ enumLines line (start + 1) rest

/-- An error dictionary of the shape every error return of the source has. -/
def errDict (msg : String) : PyDict :=
  [("status", .pstr "error"), ("error_message", .pstr msg)]

/-- The `try` body of `get_market_movers`: every early `return` is an `.ok`;
a raised exception is an `.error`. -/
def get_market_movers_body (env : MarketEnv) (limit : Nat) :
    Except String PyDict := do
  let resp ← env.gainersResp
  if resp.status_code ≠ 200 then
    return errDict ("API request failed with status code " ++
      toString resp.status_code)
  else
    let data ← resp.jsonBody
    let gainers ← match data.top_gainers with
      | none => pure []
      | some rows => (rows.take limit).mapM (processRow env)
    let losers ← match data.top_losers with
      | none => pure []
      | some rows => (rows.take limit).mapM (processRow env)
    let full_report := "Top Gainers:\n" ++ enumLines gainerLine 1 gainers ++
      "\nTop Losers:\n" ++ enumLines loserLine 1 losers
    return [("status", .pstr "success"),
            ("report", .pstr full_report),
            ("gainers", .plist (gainers.map moverDict)),
            ("losers", .plist (losers.map moverDict)),
            ("last_updated", .pstr (data.last_updated.getD "Unknown"))]

/-- Source `get_market_movers`: the `try/except` wrapper around the body. -/
def get_market_movers (env : MarketEnv) (limit : Nat) : PyDict :=
  match get_market_movers_body env limit with
  | .ok d => d
  | .error e => errDict ("Failed to retrieve market movers: " ++ e)

/-- The `try` body of `get_stock_details`. -/
def get_stock_details_body (env : MarketEnv) (symbol : String) :
    Except String PyDict := do
  let overview ← env.overviewResp
  if overview.status_code ≠ 200 then
    return errDict ("API request failed with status code " ++
      toString overview.status_code)
  else
    let overview_data ← overview.jsonBody
    match overview_data.lookup "Symbol" with
    | none => return errDict ("No data found for symbol " ++ symbol)
    | some _ => do
      let quote ← env.quoteResp
      if quote.status_code ≠ 200 then
        return errDict ("API request failed with status code " ++
          toString quote.status_code)
      else
        let quote_data := (← quote.jsonBody).global_quote.getD []
        let price ← env.pyFloat (rawGet quote_data "05. price" "0")
        let _prev_close ← env.pyFloat (rawGet quote_data "08. previous close" "0")
        let change ← env.pyFloat (rawGet quote_data "09. change" "0")
        let change_percent ←
          env.pyFloat ((rawGet quote_data "10. change percent" "0%").replace "%" "")
        let mcap ← env.pyFloat (rawGet overview_data "MarketCapitalization" "0")
        let vol ← env.pyInt (rawGet quote_data "06. volume" "0")
        let report :=
          "Stock Details for " ++ symbol ++ " (" ++
            rawGet overview_data "Name" symbol ++ "):\n" ++
          "Price: $" ++ price ++ "\n" ++
          "Change: " ++ (if env.isNonNeg change then "+" else "") ++ change ++
            " (" ++ (if env.isNonNeg change_percent then "+" else "") ++
            change_percent ++ "%)\n" ++
          "Sector: " ++ rawGet overview_data "Sector" "Unknown" ++ "\n" ++
          "Industry: " ++ rawGet overview_data "Industry" "Unknown" ++ "\n" ++
          "Market Cap: $" ++ env.fmtBillions mcap ++ " billion\n" ++
          "P/E Ratio: " ++ rawGet overview_data "PERatio" "N/A" ++ "\n" ++
          "Dividend Yield: " ++ rawGet overview_data "DividendYield" "N/A" ++ "\n" ++
          "52-week High: $" ++ rawGet overview_data "52WeekHigh" "N/A" ++ "\n" ++
          "52-week Low: $" ++ rawGet overview_data "52WeekLow" "N/A" ++ "\n" ++
          "Volume: " ++ env.intComma vol ++ "\n"
        return [("status", .pstr "success"),
                ("report", .pstr report),
                ("symbol", .pstr symbol),
                ("name", .pstr (rawGet overview_data "Name" symbol)),
                ("price", .pflt price),
                ("change", .pflt change),
                ("change_percent", .pflt change_percent),
                ("sector", .pstr (rawGet overview_data "Sector" "Unknown")),
                ("industry", .pstr (rawGet overview_data "Industry" "Unknown")),
                ("description", .pstr (rawGet overview_data "Description" ""))]

/-- Source `get_stock_details`: the `try/except` wrapper around the body. -/
def get_stock_details (env : MarketEnv) (symbol : String) : PyDict :=
  match get_stock_details_body env symbol with
  | .ok d => d
  | .error e =>
    errDict ("Failed to retrieve stock details for " ++ symbol ++ ": " ++ e)

/-! ## Basic lemmas about the State Bag and the run functions -/

theorem StateBag.get_set_self (bag : StateBag) (k v : String) :
    (StateBag.set bag k v).get k = some v := by
  simp [StateBag.set, StateBag.get]

theorem StateBag.get_set_ne (bag : StateBag) (k v k2 : String) (h : k ≠ k2) :
    (StateBag.set bag k v).get k2 = bag.get k2 := by
  simp [StateBag.set, StateBag.get, h]

theorem runStage_leaf_nil (B : Backend) (nm : String) (instr : List Tmpl)
    (k : Option String) (st : RState) :
    runStage B (.leaf nm instr k []) st =
      leafResult B nm k st (st.bag.interpolate instr) := by
  rw [runStage]

theorem runStage_leaf_noReq (B : Backend) (nm : String) (instr : List Tmpl)
    (k : Option String) (t : Stage) (ts : List Stage) (st : RState)
    (h : B.toolReq st.calls = false) :
    runStage B (.leaf nm instr k (t :: ts)) st =
      leafResult B nm k st (st.bag.interpolate instr) := by
  rw [runStage]; simp [h]

theorem runStage_leaf_toolCall (B : Backend) (nm : String) (instr : List Tmpl)
    (k : Option String) (t : Stage) (ts : List Stage) (st : RState)
    (h : B.toolReq st.calls = true) :
    runStage B (.leaf nm instr k (t :: ts)) st =
      (let sub := runStage B t ⟨[], [], st.calls + 1, false, []⟩
       let toolText := lastText sub.transcript
       let finalText := B.gen sub.calls (st.bag.interpolate instr ++ "\n" ++ toolText)
       ⟨st.transcript ++ [⟨.tool, toolText, nm⟩, ⟨.agent, finalText, nm⟩],
        writeKey st.bag k finalText,
        sub.calls + 1,
        st.stopped || B.esc sub.calls,
        st.resolved ++ [st.bag.interpolate instr]⟩) := by
  rw [runStage]; simp [h]

theorem runSeq_nil (B : Backend) (st : RState) : runSeq B [] st = st := by
  rw [runSeq]

theorem runSeq_cons (B : Backend) (c : Stage) (cs : List Stage) (st : RState) :
    runSeq B (c :: cs) st = runSeq B cs (runStage B c st) := by
  rw [runSeq]

theorem runLoop_zero (B : Backend) (cs : List Stage) (st : RState) :
    runLoop B cs 0 st = st := by
  rw [runLoop]

theorem runLoop_succ (B : Backend) (cs : List Stage) (n : Nat) (st : RState) :
    runLoop B cs (n + 1) st =
      if st.stopped then st else runLoop B cs n (runSeq B cs st) := by
  rw [runLoop]

theorem runStage_seq (B : Backend) (nm : String) (cs : List Stage) (st : RState) :
    runStage B (.seq nm cs) st = runSeq B cs st := by
  rw [runStage]

theorem runStage_loop (B : Backend) (nm : String) (n : Nat) (cs : List Stage)
    (st : RState) :
    runStage B (.loop nm n cs) st = runLoop B cs n st := by
  rw [runStage]

/-! ## The transcript is append-only -/

/-- A state transformer only ever appends to the transcript. -/
def Appends (f : RState → RState) : Prop :=
  ∀ st, ∃ ext, (f st).transcript = st.transcript ++ ext

theorem appends_id : Appends id := fun st => ⟨[], by simp⟩

theorem appends_comp {f g : RState → RState} (hf : Appends f) (hg : Appends g) :
    Appends fun st => g (f st) := by
  intro st
  obtain ⟨e1, h1⟩ := hf st
  obtain ⟨e2, h2⟩ := hg (f st)
  exact ⟨e1 ++ e2, by rw [h2, h1, List.append_assoc]⟩

theorem appends_leaf (B : Backend) (nm : String) (instr : List Tmpl)
    (k : Option String) (tools : List Stage) :
    Appends (runStage B (.leaf nm instr k tools)) := by
  intro st
  cases tools with
  | nil => exact ⟨_, by rw [runStage_leaf_nil]; rfl⟩
  | cons t ts =>
    by_cases h : B.toolReq st.calls
    · exact ⟨_, by rw [runStage_leaf_toolCall B nm instr k t ts st h]⟩
    · exact ⟨_, by rw [runStage_leaf_noReq B nm instr k t ts st
        (Bool.not_eq_true _ ▸ h)]; rfl⟩

theorem appends_runSeq (B : Backend) (cs : List Stage)
    (h : ∀ c ∈ cs, Appends (runStage B c)) : Appends (runSeq B cs) := by
  induction cs with
  | nil => intro st; exact ⟨[], by rw [runSeq_nil, List.append_nil]⟩
  | cons c cs ih =>
    intro st
    obtain ⟨e1, h1⟩ := h c (List.mem_cons_self c cs) st
    obtain ⟨e2, h2⟩ := ih (fun d hd => h d (List.mem_cons_of_mem c hd)) (runStage B c st)
    exact ⟨e1 ++ e2, by rw [runSeq_cons, h2, h1, List.append_assoc]⟩

theorem appends_runLoop (B : Backend) (cs : List Stage) (n : Nat)
    (h : Appends (runSeq B cs)) : Appends (runLoop B cs n) := by
  induction n with
  | zero => intro st; exact ⟨[], by rw [runLoop_zero, List.append_nil]⟩
  | succ n ih =>
    intro st
    by_cases hs : st.stopped
    · exact ⟨[], by rw [runLoop_succ]; simp [hs]⟩
    · obtain ⟨e1, h1⟩ := h st
      obtain ⟨e2, h2⟩ := ih (runSeq B cs st)
      exact ⟨e1 ++ e2, by rw [runLoop_succ, if_neg hs, h2, h1, List.append_assoc]⟩

theorem appends_loop_children (B : Backend) :
    Appends (runSeq B [architecture_reviewer_agent, architecture_refiner]) := by
  apply appends_runSeq
  intro c hc
  simp only [List.mem_cons, List.not_mem_nil, or_false] at hc
  rcases hc with h | h
  · rw [h, architecture_reviewer_agent]; exact appends_leaf B _ _ _ _
  · rw [h, architecture_refiner]; exact appends_leaf B _ _ _ _

theorem appends_pipeline (B : Backend) :
    Appends (runStage B software_architecture_pipeline) := by
  intro st
  rw [software_architecture_pipeline, runStage_seq, runSeq_cons, runSeq_cons,
    runSeq_nil]
  have h1 := appends_leaf B "initial_architecture_agent"
    initial_instruction (some "architecture_design") []
  have h2 : Appends (runStage B refinement_loop) := by
    intro st'
    rw [refinement_loop, runStage_loop]
    exact appends_runLoop B _ 5 (appends_loop_children B) st'
  exact appends_comp (f := runStage B initial_architecture_agent) h1 h2 st

/-! ## Stop-signal bookkeeping and exact loop iteration -/

theorem leafResult_stopped (B : Backend) (nm : String) (k : Option String)
    (st : RState) (r : String) (h : ∀ i, B.esc i = false) :
    (leafResult B nm k st r).stopped = st.stopped := by
  simp [leafResult, h]

theorem runStage_leaf_stopped (B : Backend) (nm : String) (instr : List Tmpl)
    (k : Option String) (tools : List Stage) (st : RState)
    (h : ∀ i, B.esc i = false) :
    (runStage B (.leaf nm instr k tools) st).stopped = st.stopped := by
  cases tools with
  | nil => rw [runStage_leaf_nil]; exact leafResult_stopped B nm k st _ h
  | cons t ts =>
    by_cases ht : B.toolReq st.calls
    · rw [runStage_leaf_toolCall B nm instr k t ts st ht]; simp [h]
    · rw [runStage_leaf_noReq B nm instr k t ts st (Bool.not_eq_true _ ▸ ht)]
      exact leafResult_stopped B nm k st _ h

theorem loop_children_stopped (B : Backend) (st : RState)
    (h : ∀ i, B.esc i = false) :
    (runSeq B [architecture_reviewer_agent, architecture_refiner] st).stopped =
      st.stopped := by
  rw [runSeq_cons, runSeq_cons, runSeq_nil, architecture_reviewer_agent,
    architecture_refiner, runStage_leaf_stopped _ _ _ _ _ _ h,
    runStage_leaf_stopped _ _ _ _ _ _ h]

theorem runLoop_eq_iterate (B : Backend) (cs : List Stage)
    (hpass : ∀ st, (runSeq B cs st).stopped = st.stopped) :
    ∀ (n : Nat) (st : RState), st.stopped = false →
      runLoop B cs n st = (runSeq B cs)^[n] st := by
  intro n
  induction n with
  | zero => intro st _; rw [runLoop_zero, Function.iterate_zero_apply]
  | succ n ih =>
    intro st hstop
    rw [runLoop_succ, if_neg (by simp [hstop]), Function.iterate_succ_apply,
      ih (runSeq B cs st) (by rw [hpass, hstop])]

/-! ## Counting agent turns by producing stage -/

/-- Number of agent turns of the given producing stage in a transcript. -/
def agentCount (n : String) (tr : List Turn) : Nat :=
  tr.countP fun t => decide (t.role = Role.agent ∧ t.stage = n)

theorem agentCount_append (n : String) (a b : List Turn) :
    agentCount n (a ++ b) = agentCount n a + agentCount n b := by
  simp [agentCount, List.countP_append]

theorem agentCount_leaf (B : Backend) (n nm : String) (instr : List Tmpl)
    (k : Option String) (tools : List Stage) (st : RState) :
    agentCount n ((runStage B (.leaf nm instr k tools) st).transcript) =
      agentCount n st.transcript + (if nm = n then 1 else 0) := by
  cases tools with
  | nil =>
    rw [runStage_leaf_nil]
    simp only [leafResult, agentCount_append]
    congr 1
    by_cases h : nm = n <;> simp [agentCount, List.countP_cons, h]
  | cons t ts =>
    by_cases ht : B.toolReq st.calls
    · rw [runStage_leaf_toolCall B nm instr k t ts st ht]
      simp only [agentCount_append]
      congr 1
      by_cases h : nm = n <;> simp [agentCount, List.countP_cons, h]
    · rw [runStage_leaf_noReq B nm instr k t ts st (Bool.not_eq_true _ ▸ ht)]
      simp only [leafResult, agentCount_append]
      congr 1
      by_cases h : nm = n <;> simp [agentCount, List.countP_cons, h]

theorem agentCount_iterate (n : String) (f : RState → RState)
    (hf : ∀ st, agentCount n ((f st).transcript) = agentCount n st.transcript + 1) :
    ∀ (k : Nat) (st : RState),
      agentCount n ((f^[k] st).transcript) = agentCount n st.transcript + k := by
  intro k
  induction k with
  | zero => intro st; simp
  | succ k ih =>
    intro st
    rw [Function.iterate_succ_apply, ih (f st), hf st]
    omega

theorem loop_children_count_rev (B : Backend) (st : RState) :
    agentCount "architecture_reviewer_agent"
        ((runSeq B [architecture_reviewer_agent, architecture_refiner] st).transcript) =
      agentCount "architecture_reviewer_agent" st.transcript + 1 := by
  rw [runSeq_cons, runSeq_cons, runSeq_nil, architecture_reviewer_agent,
    architecture_refiner, agentCount_leaf, agentCount_leaf]
  simp

theorem loop_children_count_ref (B : Backend) (st : RState) :
    agentCount "ArchitectureRefinerAgent"
        ((runSeq B [architecture_reviewer_agent, architecture_refiner] st).transcript) =
      agentCount "ArchitectureRefinerAgent" st.transcript + 1 := by
  rw [runSeq_cons, runSeq_cons, runSeq_nil, architecture_reviewer_agent,
    architecture_refiner, agentCount_leaf, agentCount_leaf]
  simp

/-- The refiner's run always appends exactly one agent turn (preceded by a
tool turn when a tool call was requested) and writes its declared output key
`architecture_design` with that turn's text. -/
theorem refiner_writes_output (B : Backend) (s : RState) :
    ∃ pre t,
      (runStage B architecture_refiner s).transcript =
        s.transcript ++ (pre ++ [⟨Role.agent, t, "ArchitectureRefinerAgent"⟩]) ∧
      ((runStage B architecture_refiner s).bag).get "architecture_design" =
        some t := by
  rw [architecture_refiner]
  by_cases ht : B.toolReq s.calls
  · rw [runStage_leaf_toolCall B _ _ _ _ _ s ht]
    refine ⟨[⟨Role.tool,
        lastText (runStage B web_searcher ⟨[], [], s.calls + 1, false, []⟩).transcript,
        "ArchitectureRefinerAgent"⟩],
      B.gen (runStage B web_searcher ⟨[], [], s.calls + 1, false, []⟩).calls
        (s.bag.interpolate refiner_instruction ++ "\n" ++
          lastText (runStage B web_searcher ⟨[], [], s.calls + 1, false, []⟩).transcript),
      by simp, by simp [writeKey, StateBag.get_set_self]⟩
  · rw [runStage_leaf_noReq B _ _ _ _ _ s (Bool.not_eq_true _ ▸ ht)]
    refine ⟨[], B.gen s.calls (s.bag.interpolate refiner_instruction),
      by simp [leafResult],
      by simp [leafResult, writeKey, StateBag.get_set_self]⟩

/-- C1: a LoopStage with maximum iteration count N whose run produces no stop
signal executes its child sequence exactly N times; the PostRefinementLoop has
N = 5 with children [reviewer, refiner], so one run with no stop signal
executes the reviewer and the refiner five times each, and the final
`architecture_design` value is the one written by the refiner in the fifth
pass (the last write wins). -/
theorem C1_loop_exhaustive (B : Backend) (st : RState)
    (hesc : ∀ i, B.esc i = false) (hstop : st.stopped = false) :
    (∀ (name : String) (cs : List Stage) (n : Nat) (st' : RState),
        st'.stopped = false →
        (∀ s, (runSeq B cs s).stopped = s.stopped) →
        runStage B (.loop name n cs) st' = (runSeq B cs)^[n] st')
    ∧ runStage B refinement_loop st =
        (runSeq B [architecture_reviewer_agent, architecture_refiner])^[5] st
    ∧ agentCount "architecture_reviewer_agent"
        ((runStage B refinement_loop st).transcript) =
        agentCount "architecture_reviewer_agent" st.transcript + 5
    ∧ agentCount "ArchitectureRefinerAgent"
        ((runStage B refinement_loop st).transcript) =
        agentCount "ArchitectureRefinerAgent" st.transcript + 5
    ∧ (∀ s, ∃ pre t,
        (runStage B architecture_refiner s).transcript =
          s.transcript ++ (pre ++ [⟨Role.agent, t, "ArchitectureRefinerAgent"⟩]) ∧
        ((runStage B architecture_refiner s).bag).get "architecture_design" =
          some t)
    ∧ ((runStage B refinement_loop st).bag).get "architecture_design" =
        ((runStage B architecture_refiner
            (runStage B architecture_reviewer_agent
              ((runSeq B [architecture_reviewer_agent, architecture_refiner])^[4]
                st))).bag).get "architecture_design" := by
  have hgen : ∀ (name : String) (cs : List Stage) (n : Nat) (st' : RState),
      st'.stopped = false →
      (∀ s, (runSeq B cs s).stopped = s.stopped) →
      runStage B (.loop name n cs) st' = (runSeq B cs)^[n] st' := by
    intro name cs n st' h1 h2
    rw [runStage_loop]
    exact runLoop_eq_iterate B cs h2 n st' h1
  have hloop : runStage B refinement_loop st =
      (runSeq B [architecture_reviewer_agent, architecture_refiner])^[5] st := by
    rw [refinement_loop]
    exact hgen _ _ 5 st hstop (fun s => loop_children_stopped B s hesc)
  have hfifth :
      (runSeq B [architecture_reviewer_agent, architecture_refiner])^[5] st =
      runStage B architecture_refiner
        (runStage B architecture_reviewer_agent
          ((runSeq B [architecture_reviewer_agent, architecture_refiner])^[4]
            st)) := by
    rw [Function.iterate_succ_apply', runSeq_cons, runSeq_cons, runSeq_nil]
  refine ⟨hgen, hloop, ?_, ?_, refiner_writes_output B, ?_⟩
  · rw [hloop]
    exact agentCount_iterate _ _ (loop_children_count_rev B) 5 st
  · rw [hloop]
    exact agentCount_iterate _ _ (loop_children_count_ref B) 5 st
  · rw [hloop, hfifth]

/-- Witness for C1 at a concrete backend (no stop signal, no tool request)
and the empty initial state: the loop runs its children exactly five times. -/
theorem C1_loop_exhaustive_witness :
    runStage ⟨fun i _ => toString i, fun _ => false, fun _ => false⟩
        refinement_loop ⟨[], [], 0, false, []⟩ =
      (runSeq ⟨fun i _ => toString i, fun _ => false, fun _ => false⟩
        [architecture_reviewer_agent, architecture_refiner])^[5]
        ⟨[], [], 0, false, []⟩ :=
  (C1_loop_exhaustive ⟨fun i _ => toString i, fun _ => false, fun _ => false⟩
    ⟨[], [], 0, false, []⟩ (fun _ => rfl) rfl).2.1

/-! ## Sequential ordering and template resolution -/

theorem runSeq_append (B : Backend) (cs1 cs2 : List Stage) (st : RState) :
    runSeq B (cs1 ++ cs2) st = runSeq B cs2 (runSeq B cs1 st) := by
  induction cs1 generalizing st with
  | nil => rw [List.nil_append, runSeq_nil]
  | cons c cs ih => rw [List.cons_append, runSeq_cons, runSeq_cons, ih]

/-- C2: sequential children run strictly in list order, and each later child
observes every State Bag key written by the earlier ones.  Concretely, in the
root pipeline the reviewer's `architecture_design` placeholder resolves to the
value written by the initial agent, and the refiner's two placeholders resolve
to the latest `architecture_design` and `review_feedback` values written
before it runs; when no stop signal occurs, the pipeline run is exactly this
chain followed by the four remaining loop passes. -/
theorem C2_sequential_observation (B : Backend) (st : RState) :
    (∀ (cs1 cs2 : List Stage) (st' : RState),
        runSeq B (cs1 ++ cs2) st' = runSeq B cs2 (runSeq B cs1 st'))
    ∧ ((runStage B initial_architecture_agent st).bag).get "architecture_design" =
        some (B.gen st.calls (st.bag.interpolate initial_instruction))
    ∧ (runStage B architecture_reviewer_agent
        (runStage B initial_architecture_agent st)).resolved =
        st.resolved ++
          [st.bag.interpolate initial_instruction,
           reviewer_before ++
             B.gen st.calls (st.bag.interpolate initial_instruction) ++
             reviewer_after]
    ∧ ((runStage B architecture_reviewer_agent
          (runStage B initial_architecture_agent st)).bag).get
        "architecture_design" =
        some (B.gen st.calls (st.bag.interpolate initial_instruction))
    ∧ ((runStage B architecture_reviewer_agent
          (runStage B initial_architecture_agent st)).bag).get
        "review_feedback" =
        some (B.gen (st.calls + 1)
          (reviewer_before ++
            B.gen st.calls (st.bag.interpolate initial_instruction) ++
            reviewer_after))
    ∧ (runStage B architecture_refiner
        (runStage B architecture_reviewer_agent
          (runStage B initial_architecture_agent st))).resolved =
        st.resolved ++
          [st.bag.interpolate initial_instruction,
           reviewer_before ++
             B.gen st.calls (st.bag.interpolate initial_instruction) ++
             reviewer_after,
           refiner_before ++
             B.gen st.calls (st.bag.interpolate initial_instruction) ++
             refiner_between ++
             B.gen (st.calls + 1)
               (reviewer_before ++
                 B.gen st.calls (st.bag.interpolate initial_instruction) ++
                 reviewer_after) ++
             refiner_after]
    ∧ ((∀ i, B.esc i = false) → st.stopped = false →
        runStage B software_architecture_pipeline st =
          (runSeq B [architecture_reviewer_agent, architecture_refiner])^[4]
            (runStage B architecture_refiner
              (runStage B architecture_reviewer_agent
                (runStage B initial_architecture_agent st)))) := by
  have hA : runStage B initial_architecture_agent st =
      leafResult B "initial_architecture_agent" (some "architecture_design") st
        (st.bag.interpolate initial_instruction) := by
    rw [initial_architecture_agent, runStage_leaf_nil]
  have hAbag : (runStage B initial_architecture_agent st).bag =
      StateBag.set st.bag "architecture_design"
        (B.gen st.calls (st.bag.interpolate initial_instruction)) := by
    rw [hA]; rfl
  have hAcalls : (runStage B initial_architecture_agent st).calls = st.calls + 1 := by
    rw [hA]; rfl
  have hr1' : (StateBag.set st.bag "architecture_design"
      (B.gen st.calls (st.bag.interpolate initial_instruction))).interpolate
      reviewer_instruction =
      reviewer_before ++
        B.gen st.calls (st.bag.interpolate initial_instruction) ++
        reviewer_after := by
    simp [reviewer_instruction, StateBag.interpolate, StateBag.get_set_self,
      String.append_assoc]
  have hr1 : ((runStage B initial_architecture_agent st).bag).interpolate
      reviewer_instruction =
      reviewer_before ++
        B.gen st.calls (st.bag.interpolate initial_instruction) ++
        reviewer_after := by
    rw [hAbag]; exact hr1'
  have hB : runStage B architecture_reviewer_agent
      (runStage B initial_architecture_agent st) =
      leafResult B "architecture_reviewer_agent" (some "review_feedback")
        (runStage B initial_architecture_agent st)
        (((runStage B initial_architecture_agent st).bag).interpolate
          reviewer_instruction) := by
    rw [architecture_reviewer_agent, runStage_leaf_nil]
  have hBbag : (runStage B architecture_reviewer_agent
      (runStage B initial_architecture_agent st)).bag =
      StateBag.set ((runStage B initial_architecture_agent st).bag)
        "review_feedback"
        (B.gen (st.calls + 1)
          (reviewer_before ++
            B.gen st.calls (st.bag.interpolate initial_instruction) ++
            reviewer_after)) := by
    rw [hB]
    simp only [leafResult, writeKey, hr1, hAcalls]
  have hr2 : ((runStage B architecture_reviewer_agent
      (runStage B initial_architecture_agent st)).bag).interpolate
      refiner_instruction =
      refiner_before ++
        B.gen st.calls (st.bag.interpolate initial_instruction) ++
        refiner_between ++
        B.gen (st.calls + 1)
          (reviewer_before ++
            B.gen st.calls (st.bag.interpolate initial_instruction) ++
            reviewer_after) ++
        refiner_after := by
    rw [hBbag, hAbag]
    simp [refiner_instruction, StateBag.interpolate, StateBag.get_set_self,
      StateBag.get_set_ne, String.append_assoc]
  refine ⟨runSeq_append B, ?_, ?_, ?_, ?_, ?_, ?_⟩
  · rw [hAbag]; exact StateBag.get_set_self _ _ _
  · rw [hB]
    simp only [leafResult, hA, List.append_assoc, List.singleton_append, writeKey]
    rw [hr1']
  · rw [hBbag]
    rw [StateBag.get_set_ne _ _ _ _ (by decide), hAbag]
    exact StateBag.get_set_self _ _ _
  · rw [hBbag]; exact StateBag.get_set_self _ _ _
  · have hres : (runStage B architecture_refiner
        (runStage B architecture_reviewer_agent
          (runStage B initial_architecture_agent st))).resolved =
        (runStage B architecture_reviewer_agent
          (runStage B initial_architecture_agent st)).resolved ++
          [((runStage B architecture_reviewer_agent
              (runStage B initial_architecture_agent st)).bag).interpolate
            refiner_instruction] := by
      rw [architecture_refiner]
      by_cases ht : B.toolReq (runStage B architecture_reviewer_agent
        (runStage B initial_architecture_agent st)).calls
      · rw [runStage_leaf_toolCall B _ _ _ _ _ _ ht]
      · rw [runStage_leaf_noReq B _ _ _ _ _ _ (Bool.not_eq_true _ ▸ ht)]; rfl
    rw [hres, hr2, hB]
    simp only [leafResult, hA, List.append_assoc, List.singleton_append,
      List.cons_append, List.nil_append, writeKey]
    rw [hr1']
  · intro hesc hstop
    rw [software_architecture_pipeline, runStage_seq, runSeq_cons, runSeq_cons,
      runSeq_nil, refinement_loop, runStage_loop]
    have hstopA : (runStage B initial_architecture_agent st).stopped = false := by
      rw [initial_architecture_agent, runStage_leaf_stopped _ _ _ _ _ _ hesc,
        hstop]
    rw [runLoop_eq_iterate B _ (fun s => loop_children_stopped B s hesc) 5 _ hstopA,
      Function.iterate_succ_apply, runSeq_cons, runSeq_cons, runSeq_nil]

/-- Witness for C2's conditional conjunct at a concrete backend with no stop
signal: the pipeline run is the initial/review/refine chain followed by four
more loop passes. -/
theorem C2_sequential_observation_witness :
    runStage ⟨fun i _ => toString i, fun _ => false, fun _ => false⟩
        software_architecture_pipeline ⟨[], [], 0, false, []⟩ =
      (runSeq ⟨fun i _ => toString i, fun _ => false, fun _ => false⟩
        [architecture_reviewer_agent, architecture_refiner])^[4]
        (runStage ⟨fun i _ => toString i, fun _ => false, fun _ => false⟩
          architecture_refiner
          (runStage ⟨fun i _ => toString i, fun _ => false, fun _ => false⟩
            architecture_reviewer_agent
            (runStage ⟨fun i _ => toString i, fun _ => false, fun _ => false⟩
              initial_architecture_agent ⟨[], [], 0, false, []⟩))) :=
  (C2_sequential_observation ⟨fun i _ => toString i, fun _ => false, fun _ => false⟩
    ⟨[], [], 0, false, []⟩).2.2.2.2.2.2 (fun _ => rfl) rfl

/-! ## Result extraction -/

/-- C3: when the run produced no Turns (no events), `invoke`'s extraction step
returns the empty string rather than raising or signalling an error. -/
theorem C3_empty_run_yields_empty_result : invokeResult [] = "" := rfl

/-- The result as the C4 sentence words it: the text of every part of the
final event, joined by newlines (spec-following definition, stated for
comparison with the source behavior). -/
def invokeResultAllTurns (events : List Event) : String :=
  match events.getLast? with
  | none => ""
  | some e =>
    if e.parts = [] then ""
    else String.intercalate "\n" (e.parts.map fun p => p.text.getD "")

/-- C4 fails as stated: when the final event contains a part with empty text,
the source filters that part out of the join instead of including its (empty)
text, so the returned string differs from the join of every turn's text. -/
theorem C4_counterexample :
    invokeResult [⟨[⟨some "a"⟩, ⟨some ""⟩, ⟨some "b"⟩]⟩] = "a\nb" ∧
    invokeResultAllTurns [⟨[⟨some "a"⟩, ⟨some ""⟩, ⟨some "b"⟩]⟩] = "a\n\nb" ∧
    invokeResult [⟨[⟨some "a"⟩, ⟨some ""⟩, ⟨some "b"⟩]⟩] ≠
      invokeResultAllTurns [⟨[⟨some "a"⟩, ⟨some ""⟩, ⟨some "b"⟩]⟩] := by
  refine ⟨rfl, rfl, ?_⟩
  intro h
  exact absurd h (by decide)

theorem filterMap_text_eq_map_filter (ps : List Part) :
    (ps.filterMap fun p =>
      match p.text with
      | some t => if t = "" then none else some t
      | none => none) =
    ((ps.map fun p => p.text.getD "").filter fun t => t ≠ "") := by
  induction ps with
  | nil => rfl
  | cons p ps ih =>
    cases h : p.text with
    | none => simp [List.filterMap_cons, h, ih]
    | some t =>
      by_cases ht : t = "" <;>
        simp [List.filterMap_cons, h, ht, ih]

/-- C4 (amended): when the run produced at least one Turn and the final event
has content parts, `invoke` returns the texts of the final event's parts that
are non-empty, concatenated in production order and joined by newlines. -/
theorem C4_final_event_newline_join (events : List Event) (e : Event)
    (hlast : events.getLast? = some e) (hne : e.parts ≠ []) :
    invokeResult events =
      String.intercalate "\n"
        ((e.parts.map fun p => p.text.getD "").filter fun t => t ≠ "") := by
  unfold invokeResult
  rw [hlast]
  show (if e.parts = [] then ""
      else String.intercalate "\n" (e.parts.filterMap fun p =>
        match p.text with
        | some t => if t = "" then none else some t
        | none => none)) = _
  rw [if_neg hne, filterMap_text_eq_map_filter]

/-- Witness for the amended C4 at a concrete event list. -/
theorem C4_final_event_newline_join_witness :
    invokeResult [⟨[⟨some "x"⟩, ⟨none⟩, ⟨some "y"⟩]⟩] =
      String.intercalate "\n"
        ((([⟨some "x"⟩, ⟨none⟩, ⟨some "y"⟩] : List Part).map
          fun p => p.text.getD "").filter fun t => t ≠ "") :=
  C4_final_event_newline_join [⟨[⟨some "x"⟩, ⟨none⟩, ⟨some "y"⟩]⟩]
    ⟨[⟨some "x"⟩, ⟨none⟩, ⟨some "y"⟩]⟩ rfl (by simp)

/-- C9: every newline-joined component of the returned string is the
non-empty text of an actual content part of the final event — parts with
absent or empty text are filtered out, and no synthesized text (such as the
literal string None) is ever spliced in. -/
theorem C9_only_nonempty_part_texts (events : List Event) (e : Event)
    (hlast : events.getLast? = some e) (hne : e.parts ≠ []) :
    ∃ ts : List String,
      invokeResult events = String.intercalate "\n" ts ∧
      ∀ t ∈ ts, t ≠ "" ∧ ∃ p ∈ e.parts, p.text = some t := by
  refine ⟨e.parts.filterMap fun p =>
      match p.text with
      | some t => if t = "" then none else some t
      | none => none, ?_, ?_⟩
  · unfold invokeResult
    rw [hlast]
    show (if e.parts = [] then ""
        else String.intercalate "\n" (e.parts.filterMap fun p =>
          match p.text with
          | some t => if t = "" then none else some t
          | none => none)) = _
    rw [if_neg hne]
  intro t ht
  rw [List.mem_filterMap] at ht
  obtain ⟨p, hp, hpt⟩ := ht
  split at hpt
  next s heq =>
    split at hpt
    next hs => cases hpt
    next hs =>
      obtain rfl := Option.some.inj hpt
      exact ⟨hs, p, hp, heq⟩
  next heq => cases hpt

/-- Witness for C9 at a concrete event list. -/
theorem C9_only_nonempty_part_texts_witness :
    ∃ ts : List String,
      invokeResult [⟨[⟨some "x"⟩, ⟨some ""⟩, ⟨none⟩]⟩] =
        String.intercalate "\n" ts ∧
      ∀ t ∈ ts, t ≠ "" ∧
        ∃ p ∈ ([⟨some "x"⟩, ⟨some ""⟩, ⟨none⟩] : List Part), p.text = some t :=
  C9_only_nonempty_part_texts [⟨[⟨some "x"⟩, ⟨some ""⟩, ⟨none⟩]⟩]
    ⟨[⟨some "x"⟩, ⟨some ""⟩, ⟨none⟩]⟩ rfl (by simp)

/-! ## Session lifecycle -/

theorem get_session_cons_self (store : SessionStore) (key : SessionKey)
    (s : Session) : get_session ((key, s) :: store) key = some s := by
  simp [get_session]

theorem get_session_cons_ne (store : SessionStore) (k key : SessionKey)
    (s : Session) (h : k ≠ key) :
    get_session ((k, s) :: store) key = get_session store key := by
  simp [get_session, h]

/-- C5: session lookup inside `invoke` behaves as an idempotent get-or-create:
an absent session is created with empty transcript and empty State Bag and
becomes retrievable, a present session is reused unchanged, and the operation
is total (a session-not-found failure can never surface). -/
theorem C5_get_or_create (store : SessionStore) (key : SessionKey) :
    (get_session store key = none →
      lookupOrCreate store key =
        (⟨key.sid, [], []⟩, (key, (⟨key.sid, [], []⟩ : Session)) :: store) ∧
      get_session (lookupOrCreate store key).2 key = some ⟨key.sid, [], []⟩)
    ∧ (∀ s, get_session store key = some s → lookupOrCreate store key = (s, store))
    ∧ lookupOrCreate ((lookupOrCreate store key).2) key =
        ((lookupOrCreate store key).1, (lookupOrCreate store key).2) := by
  cases h : get_session store key with
  | none =>
    have h1 : lookupOrCreate store key =
        (⟨key.sid, [], []⟩, (key, (⟨key.sid, [], []⟩ : Session)) :: store) := by
      rw [lookupOrCreate, h]
      rfl
    refine ⟨fun _ => ⟨h1, ?_⟩, ?_, ?_⟩
    · rw [h1]
      exact get_session_cons_self store key _
    · intro s hs
      cases hs
    · rw [h1, lookupOrCreate, get_session_cons_self]
  | some s =>
    have h1 : lookupOrCreate store key = (s, store) := by rw [lookupOrCreate, h]
    refine ⟨?_, ?_, ?_⟩
    · intro hn
      cases hn
    · intro s2 hs2
      obtain rfl := Option.some.inj hs2
      exact h1
    · rw [h1, lookupOrCreate, h]

/-- Witness for C5 at the empty store: the session is created with empty
transcript and empty State Bag. -/
theorem C5_get_or_create_witness :
    lookupOrCreate ([] : SessionStore) ⟨"a", "u", "s"⟩ =
      (⟨"s", [], []⟩, [(⟨"a", "u", "s"⟩, (⟨"s", [], []⟩ : Session))]) :=
  ((C5_get_or_create [] ⟨"a", "u", "s"⟩).1 rfl).1

/-- The store left by `invoke`: the updated session is stored in front under
the invocation's identity, above the store that the lookup-or-create step
produced. -/
theorem invoke_store_eq (B : Backend) (store : SessionStore)
    (q sid uid : String) :
    (invoke B store q sid uid).2 =
      (⟨APP_NAME, uid, sid⟩,
        (runnerRun B software_architecture_pipeline
          (lookupOrCreate store ⟨APP_NAME, uid, sid⟩).1 q).1) ::
        (lookupOrCreate store ⟨APP_NAME, uid, sid⟩).2 := rfl

/-- The session a run stores has as transcript the run's final transcript. -/
theorem runnerRun_fst_transcript (B : Backend) (root : Stage) (s : Session)
    (q : String) :
    ((runnerRun B root s q).1).transcript =
      (runStage B root
        ⟨s.transcript ++ [⟨Role.user, q, "user"⟩], s.bag, 0, false, []⟩).transcript :=
  rfl

/-- The transcript of the session stored by `invoke`: the prior transcript,
then the user turn carrying the input text, then the turns the pipeline
produced. -/
theorem invoke_transcript (B : Backend) (s : Session) (q : String) :
    ∃ ext,
      ((runnerRun B software_architecture_pipeline s q).1).transcript =
        s.transcript ++ (⟨Role.user, q, "user"⟩ :: ext) := by
  obtain ⟨ext, hext⟩ := appends_pipeline B
    ⟨s.transcript ++ [⟨Role.user, q, "user"⟩], s.bag, 0, false, []⟩
  refine ⟨ext, ?_⟩
  rw [runnerRun_fst_transcript, hext, List.append_assoc, List.singleton_append]

/-- C6: calling `invoke` twice with the same (userId, sessionId) leaves a
session transcript that is strictly longer after the second call, and the
turns recorded by the first call remain an unmodified prefix of it. -/
theorem C6_transcript_append_only (B1 B2 : Backend) (store : SessionStore)
    (q1 q2 sid uid : String) :
    ∃ s1 s2 : Session,
      get_session (invoke B1 store q1 sid uid).2 ⟨APP_NAME, uid, sid⟩ = some s1 ∧
      get_session (invoke B2 (invoke B1 store q1 sid uid).2 q2 sid uid).2
        ⟨APP_NAME, uid, sid⟩ = some s2 ∧
      s1.transcript.length < s2.transcript.length ∧
      ∃ ext, s2.transcript = s1.transcript ++ ext := by
  refine ⟨(runnerRun B1 software_architecture_pipeline
      (lookupOrCreate store ⟨APP_NAME, uid, sid⟩).1 q1).1, _,
    by rw [invoke_store_eq]; exact get_session_cons_self _ _ _,
    by rw [invoke_store_eq]; exact get_session_cons_self _ _ _, ?_, ?_⟩
  · have hsecond : (lookupOrCreate (invoke B1 store q1 sid uid).2
        ⟨APP_NAME, uid, sid⟩).1 =
        (runnerRun B1 software_architecture_pipeline
          (lookupOrCreate store ⟨APP_NAME, uid, sid⟩).1 q1).1 := by
      rw [lookupOrCreate, invoke_store_eq, get_session_cons_self]
    obtain ⟨ext, hext⟩ := invoke_transcript B2
      ((lookupOrCreate (invoke B1 store q1 sid uid).2 ⟨APP_NAME, uid, sid⟩).1) q2
    rw [hext, hsecond, List.length_append]
    simp
  · have hsecond : (lookupOrCreate (invoke B1 store q1 sid uid).2
        ⟨APP_NAME, uid, sid⟩).1 =
        (runnerRun B1 software_architecture_pipeline
          (lookupOrCreate store ⟨APP_NAME, uid, sid⟩).1 q1).1 := by
      rw [lookupOrCreate, invoke_store_eq, get_session_cons_self]
    obtain ⟨ext, hext⟩ := invoke_transcript B2
      ((lookupOrCreate (invoke B1 store q1 sid uid).2 ⟨APP_NAME, uid, sid⟩).1) q2
    rw [hext, hsecond]
    exact ⟨_, rfl⟩

/-- C7: `invoke` on one session id never changes what is stored under a
different session id, so the other session's run — in particular every
resolved instruction template of that run — is unaffected (State Bag writes
never leak across sessions). -/
theorem C7_session_isolation (B1 B2 : Backend) (store : SessionStore)
    (q1 q2 sid1 sid2 uid1 uid2 : String) (hne : sid1 ≠ sid2) :
    get_session (invoke B1 store q1 sid1 uid1).2 ⟨APP_NAME, uid2, sid2⟩ =
      get_session store ⟨APP_NAME, uid2, sid2⟩
    ∧ (get_session (invoke B1 store q1 sid1 uid1).2 ⟨APP_NAME, uid2, sid2⟩).map
        (fun s => runResolvedLog B2 s q2) =
      (get_session store ⟨APP_NAME, uid2, sid2⟩).map
        fun s => runResolvedLog B2 s q2 := by
  have hkey : (⟨APP_NAME, uid1, sid1⟩ : SessionKey) ≠ ⟨APP_NAME, uid2, sid2⟩ := by
    intro h
    exact hne (congrArg SessionKey.sid h)
  have h1 : get_session (invoke B1 store q1 sid1 uid1).2 ⟨APP_NAME, uid2, sid2⟩ =
      get_session store ⟨APP_NAME, uid2, sid2⟩ := by
    rw [invoke_store_eq, get_session_cons_ne _ _ _ _ hkey, lookupOrCreate]
    cases h : get_session store ⟨APP_NAME, uid1, sid1⟩ with
    | none =>
      show get_session ((⟨APP_NAME, uid1, sid1⟩, _) :: store) _ = _
      exact get_session_cons_ne _ _ _ _ hkey
    | some s => rfl
  exact ⟨h1, by rw [h1]⟩

/-- Witness for C7 at concrete distinct session ids over a store holding a
session for the second id: the other session is untouched. -/
theorem C7_session_isolation_witness :
    get_session
        (invoke ⟨fun _ _ => "g", fun _ => false, fun _ => false⟩
          [(⟨APP_NAME, "u", "s2"⟩, (⟨"s2", [], [("k", "v")]⟩ : Session))]
          "q" "s1" "u").2 ⟨APP_NAME, "u", "s2"⟩ =
      get_session
        [(⟨APP_NAME, "u", "s2"⟩, (⟨"s2", [], [("k", "v")]⟩ : Session))]
        ⟨APP_NAME, "u", "s2"⟩ :=
  (C7_session_isolation ⟨fun _ _ => "g", fun _ => false, fun _ => false⟩
    ⟨fun _ _ => "g", fun _ => false, fun _ => false⟩
    [(⟨APP_NAME, "u", "s2"⟩, (⟨"s2", [], [("k", "v")]⟩ : Session))]
    "q" "q2" "s1" "s2" "u" "u" (by decide)).1

/-! ## Stage-as-Tool delegation -/

/-- C8: when the refiner's generation requests its agent tool, the wrapped
web-searcher stage runs on its own isolated sub-conversation (fresh empty
transcript and fresh empty State Bag — never the caller's), and the exchange's
result is contributed to the caller's State Bag under the caller's declared
output key `architecture_design`; no other key of the caller's State Bag
changes, so the sub-stage writes no key of its own into it. -/
theorem C8_agent_tool_isolated (B : Backend) (st : RState)
    (ht : B.toolReq st.calls = true) :
    ∃ t,
      runStage B architecture_refiner st =
        ⟨st.transcript ++
          [⟨Role.tool,
            lastText (runStage B web_searcher
              ⟨[], [], st.calls + 1, false, []⟩).transcript,
            "ArchitectureRefinerAgent"⟩,
           ⟨Role.agent, t, "ArchitectureRefinerAgent"⟩],
         StateBag.set st.bag "architecture_design" t,
         (runStage B web_searcher ⟨[], [], st.calls + 1, false, []⟩).calls + 1,
         st.stopped ||
           B.esc (runStage B web_searcher ⟨[], [], st.calls + 1, false, []⟩).calls,
         st.resolved ++ [st.bag.interpolate refiner_instruction]⟩ ∧
      (StateBag.set st.bag "architecture_design" t).get "architecture_design" =
        some t ∧
      ∀ k, k ≠ "architecture_design" →
        (StateBag.set st.bag "architecture_design" t).get k = st.bag.get k := by
  refine ⟨B.gen (runStage B web_searcher ⟨[], [], st.calls + 1, false, []⟩).calls
      (st.bag.interpolate refiner_instruction ++ "\n" ++
        lastText (runStage B web_searcher
          ⟨[], [], st.calls + 1, false, []⟩).transcript),
    ?_, StateBag.get_set_self _ _ _,
    fun k hk => StateBag.get_set_ne _ _ _ _ fun h => hk h.symm⟩
  rw [architecture_refiner, runStage_leaf_toolCall B _ _ _ _ _ st ht]
  simp [writeKey]

/-- Witness for C8 at a concrete backend that always requests the tool. -/
theorem C8_agent_tool_isolated_witness :
    ∃ t,
      runStage ⟨fun i _ => toString i, fun _ => true, fun _ => false⟩
          architecture_refiner ⟨[], [], 0, false, []⟩ =
        ⟨[⟨Role.tool,
            lastText (runStage ⟨fun i _ => toString i, fun _ => true, fun _ => false⟩
              web_searcher ⟨[], [], 1, false, []⟩).transcript,
            "ArchitectureRefinerAgent"⟩,
          ⟨Role.agent, t, "ArchitectureRefinerAgent"⟩],
         StateBag.set [] "architecture_design" t,
         (runStage ⟨fun i _ => toString i, fun _ => true, fun _ => false⟩
            web_searcher ⟨[], [], 1, false, []⟩).calls + 1,
         false ||
           (fun _ => false)
             ((runStage ⟨fun i _ => toString i, fun _ => true, fun _ => false⟩
              web_searcher ⟨[], [], 1, false, []⟩).calls),
         [StateBag.interpolate ([] : StateBag) refiner_instruction]⟩ ∧
      (StateBag.set [] "architecture_design" t).get "architecture_design" =
        some t ∧
      ∀ k, k ≠ "architecture_design" →
        (StateBag.set [] "architecture_design" t).get k =
          StateBag.get ([] : StateBag) k := by
  have h := C8_agent_tool_isolated
    ⟨fun i _ => toString i, fun _ => true, fun _ => false⟩
    ⟨[], [], 0, false, []⟩ rfl
  simpa using h

/-! ## Market tool functions always return a status dictionary -/

/-- Shape of every market tool result: a dictionary whose `status` is
`success` or `error`, with an `error_message` entry whenever it is `error`. -/
def statusOkShape (d : PyDict) : Prop :=
  (dictGet d "status" = some (.pstr "success") ∨
    dictGet d "status" = some (.pstr "error"))
  ∧ (dictGet d "status" = some (.pstr "error") →
      ∃ m, dictGet d "error_message" = some (.pstr m))

theorem errDict_shape (m : String) : statusOkShape (errDict m) :=
  ⟨Or.inr rfl, fun _ => ⟨m, rfl⟩⟩

theorem movers_body_shape (env : MarketEnv) (limit : Nat) (d : PyDict)
    (h : get_market_movers_body env limit = .ok d) : statusOkShape d := by
  unfold get_market_movers_body at h
  simp only [bind, Except.bind, pure, Except.pure] at h
  repeat' split at h
  any_goals cases h
  any_goals exact errDict_shape _
  all_goals refine ⟨Or.inl rfl, fun hc => ?_⟩
  all_goals exact absurd (PyObj.pstr.inj (Option.some.inj hc)) (by decide)

theorem details_body_shape (env : MarketEnv) (symbol : String) (d : PyDict)
    (h : get_stock_details_body env symbol = .ok d) : statusOkShape d := by
  unfold get_stock_details_body at h
  simp only [bind, Except.bind, pure, Except.pure] at h
  repeat' split at h
  any_goals cases h
  any_goals exact errDict_shape _
  all_goals refine ⟨Or.inl rfl, fun hc => ?_⟩
  all_goals exact absurd (PyObj.pstr.inj (Option.some.inj hc)) (by decide)

/-- C10: for every backend/network outcome, including any exception raised
while fetching or parsing, the two tool functions never raise: each returns a
dictionary whose `status` is `success` or `error`, and an `error` result
always carries an `error_message` entry. -/
theorem C10_market_tools_never_raise (env : MarketEnv) (limit : Nat)
    (symbol : String) :
    statusOkShape (get_market_movers env limit) ∧
    statusOkShape (get_stock_details env symbol) := by
  constructor
  · unfold get_market_movers
    cases h : get_market_movers_body env limit with
    | ok d => exact movers_body_shape env limit d h
    | error e => exact errDict_shape _
  · unfold get_stock_details
    cases h : get_stock_details_body env symbol with
    | ok d => exact details_body_shape env symbol d h
    | error e => exact errDict_shape _

/-- Witness for C10 at an environment whose every request raises: both tools
still return a status dictionary. -/
theorem C10_market_tools_never_raise_witness :
    statusOkShape
      (get_market_movers
        ⟨.error "boom", .error "boom", .error "boom",
          fun _ => .error "bad float", fun _ => .error "bad int",
          fun _ => true, fun s => s, fun n => toString n⟩ 10) ∧
    statusOkShape
      (get_stock_details
        ⟨.error "boom", .error "boom", .error "boom",
          fun _ => .error "bad float", fun _ => .error "bad int",
          fun _ => true, fun s => s, fun n => toString n⟩ "AAPL") :=
  C10_market_tools_never_raise
    ⟨.error "boom", .error "boom", .error "boom",
      fun _ => .error "bad float", fun _ => .error "bad int",
      fun _ => true, fun s => s, fun n => toString n⟩ 10 "AAPL"

end Jadk
